import Mathlib

/-!
Verification of the rn-performance Pokédex client.

Shallow embedding of the repository's pure core:
  - `src/utils/fetch-pokemon.ts` (paging request shape),
  - the `useInfiniteQuery` paging bookkeeping of `PokedexScreen.tsx`
    (`getNextPageParam`, the guarded `onEndReached` call),
  - the `pokemons` memo of both `PokedexScreen.tsx` variants,
  - `src/utils/fetch-pokemon-details.ts` (`getPokemonId`, `fetchPokemonDetails`),
  - the Zustand store (`setSearch`, `toggleFavorite`),
  - the `lodash.debounce`d search handler,
  - the detail-enrichment effect (`fetchDetails`) of variant 2.
-/

namespace RNPerf

/-- A summary record as returned by the catalog: `{ name, url }`. -/
structure Pokemon where
  name : String
  url : String
deriving DecidableEq, Repr

/-- One page of the paginated response: `{ results, next }`.  The `next`
field of the JSON body is a URL or `null`; only its truthiness is ever
consulted (`lastPage.next ? … : undefined`), so it is embedded as a Bool. -/
structure Page where
  results : List Pokemon
  next : Bool
deriving DecidableEq, Repr

/-- `const PAGE_SIZE = 20;` in `src/utils/fetch-pokemon.ts`. -/
def PAGE_SIZE : Nat := 20

/-- `const offset = pageParam * PAGE_SIZE;` in `fetchPokemons`. -/
def fetchPokemonsOffset (pageParam : Nat) : Nat := pageParam * PAGE_SIZE

/-- The limit query parameter sent by `fetchPokemons` (`limit=${PAGE_SIZE}`). -/
def fetchPokemonsLimit : Nat := PAGE_SIZE

/-- The request URL built by `fetchPokemons` for a given page parameter. -/
def fetchPokemonsUrl (pageParam : Nat) : String :=
  "https://pokeapi.co/api/v2/pokemon?offset=" ++ toString (fetchPokemonsOffset pageParam)
    ++ "&limit=" ++ toString fetchPokemonsLimit

/-- `getNextPageParam: (lastPage, pages) => lastPage.next ? pages.length : undefined`
(identical in both variants of `PokedexScreen.tsx`). -/
def getNextPageParam (lastPage : Page) (pages : List Page) : Option Nat :=
  if lastPage.next then some pages.length else none

/-- Models the `useInfiniteQuery` bookkeeping: the page parameter the next
fetch would use, given the pages fetched so far.  Before any page exists this
is `initialPageParam: 0`; afterwards it is `getNextPageParam` applied to the
last page, with `undefined` embedded as `none`. -/
def nextPageParamOf (pages : List Page) : Option Nat :=
  match pages.getLast? with
  | none => some 0
  | some lastPage => getNextPageParam lastPage pages

/-- `hasNextPage` as derived by `useInfiniteQuery`: defined (non-`undefined`)
next page parameter. -/
def hasNextPage (pages : List Page) : Bool := (nextPageParamOf pages).isSome

/-- One `onEndReached={() => hasNextPage && fetchNextPage()}` invocation:
if a next page parameter exists, one request with that parameter is issued
and its response page appended; otherwise no request is issued and the state
is unchanged.  Returns the new page list and the list of issued request
parameters (empty or a singleton). -/
def onEndReachedStep (client : Nat → Page) (pages : List Page) :
    List Page × List Nat :=
  match nextPageParamOf pages with
  | none => (pages, [])
  | some p => (pages ++ [client p], [p])

/-- A sequence of `n` successive `onEndReached` invocations, accumulating the
issued request parameters. -/
def onEndReachedRun (client : Nat → Page) : Nat → List Page → List Page × List Nat
  | 0, pages => (pages, [])
  | n + 1, pages =>
    let step := onEndReachedStep client pages
    let rest := onEndReachedRun client n step.1
    (rest.1, step.2 ++ rest.2)

/-- `data.pages.flatMap((page) => page.results)` — the accumulated summary
list built by the `pokemons` memo in both variants. -/
def accumulatedOf (pages : List Page) : List Pokemon :=
  pages.flatMap fun page => page.results

/-- JavaScript `hay.includes(needle)`: `needle` occurs as a contiguous
substring of `hay`. -/
def strContainsSub (hay needle : String) : Bool :=
  (List.range (hay.data.length + 1)).any fun i => needle.data.isPrefixOf (hay.data.drop i)

/-- JavaScript `s.toLowerCase()` (character-wise lowercasing). -/
def jsToLower (s : String) : String := String.mk (s.data.map Char.toLower)

/-- The filtering step of the variant-1 `pokemons` memo (lines 54–55):
`if (!search) return all; return all.filter((p) => p.name.includes(search))`. -/
def project_v1 (all : List Pokemon) (search : String) : List Pokemon :=
  if search = "" then all
  else all.filter fun pokemon => strContainsSub pokemon.name search

/-- The filtering step of the variant-2 `pokemons` memo (lines 264–267):
`all.filter((p) => p.name.toLowerCase().includes(search.toLowerCase()))`. -/
def project_v2 (all : List Pokemon) (search : String) : List Pokemon :=
  if search = "" then all
  else all.filter fun pokemon => strContainsSub (jsToLower pokemon.name) (jsToLower search)

/-- The variant-1 `pokemons` memo: `if (!data) return []` then flatten and
filter. -/
def pokemons_v1 (data : Option (List Page)) (search : String) : List Pokemon :=
  match data with
  | none => []
  | some pages => project_v1 (accumulatedOf pages) search

/-- The variant-2 `pokemons` memo: `if (!data?.pages?.length) return []`
then flatten and filter case-insensitively. -/
def pokemons_v2 (data : Option (List Page)) (search : String) : List Pokemon :=
  match data with
  | none => []
  | some pages =>
    if pages.length = 0 then []
    else project_v2 (accumulatedOf pages) search

/-- `toggleFavorite` from the store: copy the set, then
`if (favorites.has(name)) favorites.delete(name); else favorites.add(name)`.
Embedded on the membership structure of the copied set. -/
def toggleFavorite (name : String) (favorites : Finset String) : Finset String :=
  if name ∈ favorites then favorites.erase name else insert name favorites

/-- The Zustand store state, with the `Set` object modelled explicitly:
`favPtr` is the reference held in the `favorites` field and `heap` maps
references (list indices) to `Set` contents, so that installing a fresh copy
versus mutating in place is observable. -/
structure StoreState where
  search : String
  favPtr : Nat
  heap : List (Finset String)

/-- Dereference the store's current `favorites` set. -/
def readFavorites (st : StoreState) : Finset String := st.heap.getD st.favPtr ∅

/-- The store created by `create(...)`: `search: ''`, `favorites: new Set()`. -/
def initialStore : StoreState := { search := "", favPtr := 0, heap := [∅] }

/-- `setSearch: (search) => set(() => ({ search }))` — Zustand merges the
partial state, so only the `search` field is replaced. -/
def setSearch (term : String) (st : StoreState) : StoreState :=
  { st with search := term }

/-- `toggleFavorite` as a store action: `const favorites = new Set(state.favorites)`
allocates a fresh set (a new heap cell), toggles `name` in the copy, and
`set` installs the copy as the new `favorites` reference.  The original cell
is never written. -/
def toggleFavoriteAction (name : String) (st : StoreState) : StoreState :=
  { search := st.search
    favPtr := st.heap.length
    heap := st.heap ++ [toggleFavorite name (readFavorites st)] }

/-- `data.sprites` object shape: only `front_default` is read. -/
structure Sprites where
  front_default : Option String
deriving DecidableEq, Repr

/-- An entry of `data.types`: only `t.type.name` is read; `t.type` may be
absent (malformed body), and `name` may itself be absent. -/
structure TypeEntry where
  typeField : Option (Option String)
deriving DecidableEq, Repr

/-- The parsed JSON body of a detail response, restricted to the fields the
code reads.  `none` at `sprites` or `types` models an absent field whose
member access would throw. -/
structure DetailBody where
  id : Option Int
  sprites : Option Sprites
  types : Option (List TypeEntry)
deriving DecidableEq, Repr

/-- The outcome of `fetch` + `res.json()` for a detail request: either the
promise rejects (transport error or unparsable JSON), or a response arrives
with an `ok` flag and a parsed body. -/
inductive FetchOutcome where
  | reject
  | response (ok : Bool) (body : DetailBody)
deriving DecidableEq, Repr

/-- The record returned by `fetchPokemonDetails`. -/
structure PokemonDetails where
  id : Option Int
  sprite : Option String
  types : List (Option String)
deriving DecidableEq, Repr

/-- The all-null/empty result returned from the `catch` branch:
`{ id: null, sprite: null, types: [] }`. -/
def detailsSentinel : PokemonDetails := ⟨none, none, []⟩

/-- The `try` block of `fetchPokemonDetails`: throws (`.error`) on a rejected
fetch, on `!res.ok`, and on any member access of an absent `sprites`, `types`
or `t.type` (a TypeError in JavaScript). -/
def parseDetails (o : FetchOutcome) : Except Unit PokemonDetails :=
  match o with
  | .reject => .error ()
  | .response ok body =>
    if !ok then .error ()
    else
      match body.sprites, body.types with
      | some sprites, some types =>
        if types.all fun t => t.typeField.isSome then
          .ok ⟨body.id, sprites.front_default, types.map fun t => t.typeField.join⟩
        else .error ()
      | _, _ => .error ()

/-- `fetchPokemonDetails`: the `try` block with every failure absorbed by
`catch` into the sentinel. -/
def fetchPokemonDetails (o : FetchOutcome) : PokemonDetails :=
  match parseDetails o with
  | .ok d => d
  | .error _ => detailsSentinel

/-- The failure cases named by the contract, stated structurally on the
outcome: rejected fetch, non-ok response, or a body whose `sprites`, `types`
or some `t.type` is absent. -/
def isFailureOutcome (o : FetchOutcome) : Bool :=
  match o with
  | .reject => true
  | .response ok body =>
    !ok || body.sprites.isNone || body.types.isNone
      || !((body.types.getD []).all fun t => t.typeField.isSome)

/-- The characters of the literal `/pokemon/` in the regex
`/\/pokemon\/(\d+)\//` of `getPokemonId`. -/
def pokemonSegPrefix : List Char := "/pokemon/".data

/-- Attempt to match the regex `\/pokemon\/(\d+)\//` at the start of `cs`:
the literal prefix, then a maximal nonempty digit run, then a slash. -/
def idMatchAt (cs : List Char) : Option (List Char) :=
  if pokemonSegPrefix.isPrefixOf cs then
    if ((cs.drop pokemonSegPrefix.length).takeWhile Char.isDigit).isEmpty then none
    else if ((cs.drop pokemonSegPrefix.length).drop
          ((cs.drop pokemonSegPrefix.length).takeWhile Char.isDigit).length).head?
        = some '/' then
      some ((cs.drop pokemonSegPrefix.length).takeWhile Char.isDigit)
    else none
  else none

/-- Leftmost regex match: try `idMatchAt` at each successive start position,
as `String.prototype.match` does. -/
def idScan : List Char → Option (List Char)
  | [] => none
  | c :: rest =>
    match idMatchAt (c :: rest) with
    | some ds => some ds
    | none => idScan rest

/-- `getPokemonId(url)`: the captured digit group of the first
`/pokemon/<digits>/` occurrence, else `null` (embedded as `none`). -/
def getPokemonId (url : String) : Option String :=
  (idScan url.data).map fun ds => String.mk ds

/-- `const id = getPokemonId(p.url) || p.name;` — JavaScript `||` also falls
through on an empty string, so the embedding keeps that truthiness test. -/
def resolveId (p : Pokemon) : String :=
  match getPokemonId p.url with
  | some s => if s = "" then p.name else s
  | none => p.name

/-- A `/pokemon/<digits>/` segment occurs somewhere in the URL. -/
def HasIdSegment (url : String) : Prop :=
  ∃ pre ds post, ds ≠ [] ∧ (∀ c ∈ ds, c.isDigit) ∧
    url.data = pre ++ pokemonSegPrefix ++ ds ++ '/' :: post

/-- `pokemons.filter((p) => !pokemonDetails[p.name])` in the `fetchDetails`
effect of variant 2, with `details` the set of names already present as keys
of `pokemonDetails` (stored values are objects, hence truthy). -/
def missingOf (details : List String) (pokemons : List Pokemon) : List Pokemon :=
  pokemons.filter fun p => !details.contains p.name

/-- The identifiers requested from the Detail Enrichment Client by one run of
the `fetchDetails` effect, given the currently committed `pokemonDetails`
keys: one `fetchPokemonDetails(id)` call per missing record. -/
def requestsOf (details : List String) (pokemons : List Pokemon) : List String :=
  (missingOf details pokemons).map resolveId

/-- `setPokemonDetails((prev) => { const next = {...prev}; for (r of results)
next[r.name] = …; return next; })` — at the key level, the committed key set
is the union of the previous keys and the batch's names. -/
def commitDetails (details : List String) (names : List String) : List String :=
  details ++ names

/-- `lodash.debounce(f, wait)` with default (trailing-edge) options, applied
to a time-stamped call sequence: each call re-arms a timer for `wait` after
itself; the timer fires with the latest call's argument iff no further call
arrives before it expires.  Returns the arguments of the fired invocations in
order. -/
def debounceFires (wait : Nat) : List (Nat × String) → List String
  | [] => []
  | [e] => [e.2]
  | e1 :: e2 :: rest =>
    (if e1.1 + wait ≤ e2.1 then [e1.2] else []) ++ debounceFires wait (e2 :: rest)

/-- Variant-1 search path: `handleSearch(text)` calls
`debouncedSetSearch(text.toLowerCase())` where
`debouncedSetSearch = debounce(setSearch, 300)`.  Returns the arguments of
the resulting `setSearch` invocations for a time-stamped keystroke sequence. -/
def setSearchCalls_v1 (keystrokes : List (Nat × String)) : List String :=
  debounceFires 300 (keystrokes.map fun e => (e.1, jsToLower e.2))

/-- Variant-2 search path: `handleSearch(text)` calls
`debouncedSetSearch.current(text)` with
`debounce((text) => setSearchRef.current(text), 300)`. -/
def setSearchCalls_v2 (keystrokes : List (Nat × String)) : List String :=
  debounceFires 300 keystrokes

/-- The projection as worded by the spec, for comparison with the source
definitions: the empty term returns the records unchanged, and a non-empty
term keeps exactly the records whose name contains the term as a
case-insensitive substring (substring stated as list infix). -/
def projectSpec (records : List Pokemon) (term : String) : List Pokemon :=
  if term = "" then records
  else records.filter fun r =>
    decide ((jsToLower term).data <:+: (jsToLower r.name).data)

/-- C6: page fetches use a zero-based page index advancing by one per
committed page — after `n` pages whose last response has `next` truthy, the
next request uses page index `n` (`pages.length`) — and the request for page
index `p` covers offset `p * 20` with a fixed limit of 20 records. -/
theorem page_index_offset_limit :
    (∀ (pages : List Page) (lastPage : Page),
        pages.getLast? = some lastPage → lastPage.next = true →
        nextPageParamOf pages = some pages.length) ∧
    (∀ p : Nat, fetchPokemonsOffset p = p * 20) ∧ fetchPokemonsLimit = 20 := by
  refine ⟨?_, fun p => rfl, rfl⟩
  intro pages lastPage hlast hnext
  simp [nextPageParamOf, hlast, getNextPageParam, hnext]

/-- Witness for `page_index_offset_limit` at a concrete one-page state. -/
theorem page_index_offset_limit_witness :
    [(⟨[], true⟩ : Page)].getLast? = some ⟨[], true⟩ ∧
    Page.next ⟨[], true⟩ = true ∧
    nextPageParamOf [(⟨[], true⟩ : Page)] = some 1 :=
  ⟨rfl, rfl, page_index_offset_limit.1 [⟨[], true⟩] ⟨[], true⟩ rfl rfl⟩

/-- C5: once the last page response has `next` falsy, `hasNextPage` is false
and any number of further `onEndReached` invocations leaves the state
unchanged and issues no request to the Remote Catalog Client. -/
theorem end_of_data_stops_requests (client : Nat → Page) (pages : List Page)
    (lastPage : Page) (hlast : pages.getLast? = some lastPage)
    (hnext : lastPage.next = false) :
    hasNextPage pages = false ∧
    ∀ n, onEndReachedRun client n pages = (pages, []) := by
  have hparam : nextPageParamOf pages = none := by
    simp [nextPageParamOf, hlast, getNextPageParam, hnext]
  have hstep : onEndReachedStep client pages = (pages, []) := by
    simp [onEndReachedStep, hparam]
  refine ⟨by simp [hasNextPage, hparam], ?_⟩
  intro n
  induction n with
  | zero => rfl
  | succ n ih => simp [onEndReachedRun, hstep, ih]

/-- Witness for `end_of_data_stops_requests`: a one-page state whose page has
`next = false`, run for two further invocations. -/
theorem end_of_data_stops_requests_witness :
    hasNextPage [(⟨[], false⟩ : Page)] = false ∧
    onEndReachedRun (fun _ => ⟨[], false⟩) 2 [(⟨[], false⟩ : Page)]
      = ([(⟨[], false⟩ : Page)], []) := by
  have h := end_of_data_stops_requests (fun _ => ⟨[], false⟩)
    [(⟨[], false⟩ : Page)] ⟨[], false⟩ rfl rfl
  exact ⟨h.1, h.2 2⟩

/-- C7: `toggleFavorite name` flips exactly the membership of `name`, leaves
every other name's membership unchanged, and toggling twice restores the
membership of `name`. -/
theorem toggleFavorite_flips_membership (name : String) (favorites : Finset String) :
    (name ∈ toggleFavorite name favorites ↔ name ∉ favorites) ∧
    (∀ m, m ≠ name → (m ∈ toggleFavorite name favorites ↔ m ∈ favorites)) ∧
    (name ∈ toggleFavorite name (toggleFavorite name favorites) ↔ name ∈ favorites) := by
  by_cases h : name ∈ favorites
  · refine ⟨by simp [toggleFavorite, h], fun m hm => ?_, ?_⟩
    · simp [toggleFavorite, h, Finset.mem_erase, hm]
    · simp [toggleFavorite, h, Finset.not_mem_erase, Finset.mem_insert]
  · refine ⟨by simp [toggleFavorite, h], fun m hm => ?_, ?_⟩
    · simp [toggleFavorite, h, Finset.mem_insert, hm]
    · simp [toggleFavorite, h, Finset.mem_insert, Finset.mem_erase]

/-- Witness for `toggleFavorite_flips_membership` at `name := "a"`,
`m := "b"`, on the empty favorites set. -/
theorem toggleFavorite_flips_membership_witness :
    ("b" : String) ≠ "a" ∧
    (("b" : String) ∈ toggleFavorite "a" (∅ : Finset String) ↔
      ("b" : String) ∈ (∅ : Finset String)) :=
  ⟨by decide, (toggleFavorite_flips_membership "a" ∅).2.1 "b" (by decide)⟩

/-- C4: on every transport or parse failure — rejected fetch, non-ok
response, or malformed body — `fetchPokemonDetails` returns the all-null/
empty sentinel `{ id: null, sprite: null, types: [] }` rather than
propagating the failure. -/
theorem detail_failure_absorbed (o : FetchOutcome)
    (h : isFailureOutcome o = true) :
    fetchPokemonDetails o = detailsSentinel := by
  cases o with
  | reject => rfl
  | response ok body =>
    obtain ⟨i, sprites, types⟩ := body
    cases ok with
    | false => rfl
    | true =>
      cases sprites with
      | none => rfl
      | some s =>
        cases types with
        | none => rfl
        | some ts =>
          have hall : (ts.all fun t => t.typeField.isSome) = false := by
            simpa [isFailureOutcome] using h
          simp [fetchPokemonDetails, parseDetails, hall]

/-- Witness for `detail_failure_absorbed` at a rejected fetch. -/
theorem detail_failure_absorbed_witness :
    isFailureOutcome .reject = true ∧
    fetchPokemonDetails .reject = detailsSentinel :=
  ⟨rfl, detail_failure_absorbed .reject rfl⟩

/-- C1 counterexample: when the remote client returns overlapping pages, the
accumulated list built by the `pokemons` memo keeps both copies — the
already-present record is not dropped, and two records share the name
`"a"`. -/
theorem accumulated_duplicate_counterexample :
    ((pokemons_v2 (some [⟨[⟨"a", "u"⟩], true⟩, ⟨[⟨"a", "u"⟩], false⟩]) "").map
        Pokemon.name = ["a", "a"]) ∧
    ¬ ((pokemons_v2 (some [⟨[⟨"a", "u"⟩], true⟩, ⟨[⟨"a", "u"⟩], false⟩]) "").map
        Pokemon.name).Nodup := by
  exact ⟨by decide, by decide⟩

/-- C1 (amended): the accumulated list is the in-order concatenation of the
fetched pages; its names are duplicate-free whenever each page is internally
duplicate-free and distinct pages are name-disjoint (no merging or dropping
is performed). -/
theorem accumulated_nodup_of_disjoint_pages (pages : List Page)
    (heach : ∀ pg ∈ pages, (pg.results.map Pokemon.name).Nodup)
    (hdisj : pages.Pairwise
      (List.Disjoint on fun pg => pg.results.map Pokemon.name)) :
    ((accumulatedOf pages).map Pokemon.name).Nodup := by
  have hmap : (accumulatedOf pages).map Pokemon.name
      = pages.flatMap fun pg => pg.results.map Pokemon.name := by
    simp [accumulatedOf, List.map_flatMap]
  rw [hmap, List.nodup_flatMap]
  exact ⟨heach, hdisj⟩

/-- Witness for `accumulated_nodup_of_disjoint_pages` on two disjoint
single-record pages. -/
theorem accumulated_nodup_of_disjoint_pages_witness :
    (∀ pg ∈ [(⟨[⟨"a", "u"⟩], true⟩ : Page), ⟨[⟨"b", "v"⟩], false⟩],
      (pg.results.map Pokemon.name).Nodup) ∧
    ([(⟨[⟨"a", "u"⟩], true⟩ : Page), ⟨[⟨"b", "v"⟩], false⟩].Pairwise
      (List.Disjoint on fun pg => pg.results.map Pokemon.name)) ∧
    ((accumulatedOf [(⟨[⟨"a", "u"⟩], true⟩ : Page), ⟨[⟨"b", "v"⟩], false⟩]).map
      Pokemon.name).Nodup := by
  have hd : [(⟨[⟨"a", "u"⟩], true⟩ : Page), ⟨[⟨"b", "v"⟩], false⟩].Pairwise
      (List.Disjoint on fun pg => pg.results.map Pokemon.name) := by
    refine List.Pairwise.cons (fun q hq => ?_) (List.pairwise_singleton _ _)
    simp only [List.mem_singleton] at hq
    subst hq
    intro a ha hb
    simp at ha hb
    subst ha
    exact absurd hb (by decide)
  exact ⟨by decide, hd,
    accumulated_nodup_of_disjoint_pages _ (by decide) hd⟩

/-- C2 counterexample: two `fetchDetails` effect runs that both start before
the first batch's results are committed (as with concurrent invocations
before resolution) each observe the record missing and each issue an
outbound request — two requests for identifier `"1"`, not exactly one. -/
theorem enrichment_duplicate_request_counterexample :
    (requestsOf [] [⟨"bulbasaur", "https://pokeapi.co/api/v2/pokemon/1/"⟩] ++
      requestsOf [] [⟨"bulbasaur", "https://pokeapi.co/api/v2/pokemon/1/"⟩])
      = ["1", "1"] ∧
    ((requestsOf [] [⟨"bulbasaur", "https://pokeapi.co/api/v2/pokemon/1/"⟩] ++
      requestsOf [] [⟨"bulbasaur", "https://pokeapi.co/api/v2/pokemon/1/"⟩]).count
        "1" ≠ 1) := by
  exact ⟨by decide, by decide⟩

/-- C2 (amended): an identifier whose name is already committed in
`pokemonDetails` (Resolved) is never re-requested by a `fetchDetails` run,
and a committed name stays committed across any later batch commit; there is
no Pending marker, so each run that still observes a name missing issues its
own request (see the counterexample). -/
theorem enrichment_resolved_not_refetched (details : List String)
    (pokemons : List Pokemon) (name : String) (hmem : name ∈ details) :
    (∀ q ∈ missingOf details pokemons, q.name ≠ name) ∧
    (∀ names, name ∈ commitDetails details names) := by
  refine ⟨fun q hq => ?_, fun names => ?_⟩
  · have hq' := List.of_mem_filter hq
    intro heq
    rw [heq] at hq'
    simp [hmem] at hq'
  · simp [commitDetails, hmem]

/-- Witness for `enrichment_resolved_not_refetched`: `"bulbasaur"` already
committed, one record list. -/
theorem enrichment_resolved_not_refetched_witness :
    ("bulbasaur" : String) ∈ ["bulbasaur"] ∧
    (∀ q ∈ missingOf ["bulbasaur"] [⟨"bulbasaur", "u"⟩], q.name ≠ "bulbasaur") ∧
    ("bulbasaur" : String) ∈ commitDetails ["bulbasaur"] ["ivysaur"] := by
  have h := enrichment_resolved_not_refetched ["bulbasaur"]
    [⟨"bulbasaur", "u"⟩] "bulbasaur" (by decide)
  exact ⟨by decide, h.1, h.2 ["ivysaur"]⟩

/-- JavaScript `includes` agrees with list-infix containment. -/
theorem strContainsSub_iff_infix (hay needle : String) :
    strContainsSub hay needle = true ↔ needle.data <:+: hay.data := by
  unfold strContainsSub
  rw [List.any_eq_true]
  constructor
  · rintro ⟨i, _, hpre⟩
    rw [List.isPrefixOf_iff_prefix] at hpre
    obtain ⟨t, ht⟩ := hpre
    exact ⟨hay.data.take i, t, by rw [List.append_assoc, ht, List.take_append_drop]⟩
  · rintro ⟨s, t, h⟩
    refine ⟨s.length, ?_, ?_⟩
    · rw [List.mem_range]
      have hlen : s.length ≤ hay.data.length := by
        rw [← h]; simp [List.length_append]
      omega
    · rw [List.isPrefixOf_iff_prefix, ← h, List.append_assoc, List.drop_left]
      exact List.prefix_append needle.data t

/-- The variant-2 projection coincides with the spec's description. -/
theorem project_v2_eq_spec (all : List Pokemon) (term : String) :
    project_v2 all term = projectSpec all term := by
  by_cases h : term = ""
  · simp [project_v2, projectSpec, h]
  · simp only [project_v2, projectSpec, if_neg h]
    apply List.filter_congr
    intro p _
    rw [Bool.eq_iff_iff, decide_eq_true_iff]
    exact strContainsSub_iff_infix _ _

/-- C3 counterexample: the variant-1 projection matches case-sensitively —
on a record named `"Pikachu"` and term `"pik"` it returns the empty list,
while the claimed case-insensitive subsequence keeps the record. -/
theorem projection_case_counterexample :
    project_v1 [⟨"Pikachu", "u"⟩] "pik" = [] ∧
    projectSpec [⟨"Pikachu", "u"⟩] "pik" = [⟨"Pikachu", "u"⟩] ∧
    project_v1 [⟨"Pikachu", "u"⟩] "pik" ≠ projectSpec [⟨"Pikachu", "u"⟩] "pik" :=
  ⟨by decide, by decide, by decide⟩

/-- C3 (amended): both projections are pure functions that return the list
unchanged on the empty term and an order-preserving subsequence otherwise;
variant 2 keeps exactly the records whose name contains the term as a
case-insensitive substring (it coincides with the spec's projection), while
variant 1 keeps exactly the records whose name contains the term as a
case-SENSITIVE substring. -/
theorem projection_correct (all : List Pokemon) (term : String) :
    project_v1 all "" = all ∧
    project_v2 all "" = all ∧
    (project_v1 all term).Sublist all ∧
    (project_v2 all term).Sublist all ∧
    project_v2 all term = projectSpec all term ∧
    (term ≠ "" → ∀ p, p ∈ project_v2 all term ↔
      p ∈ all ∧ (jsToLower term).data <:+: (jsToLower p.name).data) ∧
    (term ≠ "" → ∀ p, p ∈ project_v1 all term ↔
      p ∈ all ∧ term.data <:+: p.name.data) := by
  refine ⟨by simp [project_v1], by simp [project_v2], ?_, ?_,
    project_v2_eq_spec all term, fun h p => ?_, fun h p => ?_⟩
  · unfold project_v1
    split
    · exact List.Sublist.refl _
    · exact List.filter_sublist _
  · unfold project_v2
    split
    · exact List.Sublist.refl _
    · exact List.filter_sublist _
  · simp [project_v2, if_neg h, List.mem_filter, strContainsSub_iff_infix]
  · simp [project_v1, if_neg h, List.mem_filter, strContainsSub_iff_infix]

/-- Witness for `projection_correct`: term `"pik"` against a record named
`"Pikachu"`, variant 2. -/
theorem projection_correct_witness :
    ("pik" : String) ≠ "" ∧
    ((⟨"Pikachu", "u"⟩ : Pokemon) ∈ project_v2 [⟨"Pikachu", "u"⟩] "pik" ↔
      (⟨"Pikachu", "u"⟩ : Pokemon) ∈ [(⟨"Pikachu", "u"⟩ : Pokemon)] ∧
        (jsToLower "pik").data <:+: (jsToLower "Pikachu").data) :=
  ⟨by decide,
    (projection_correct [⟨"Pikachu", "u"⟩] "pik").2.2.2.2.2.1 (by decide)
      ⟨"Pikachu", "u"⟩⟩

/-- Trailing-edge debounce collapses a burst: if every call arrives before
the previous call's timer expires, only the final call fires. -/
theorem debounceFires_burst (wait : Nat) (ks : List (Nat × String))
    (last : Nat × String) (hlast : ks.getLast? = some last)
    (hburst : ks.Chain' fun a b => b.1 < a.1 + wait) :
    debounceFires wait ks = [last.2] := by
  induction ks with
  | nil => simp at hlast
  | cons e rest ih =>
    cases rest with
    | nil =>
      simp at hlast
      subst hlast
      rfl
    | cons e2 rest2 =>
      rw [List.chain'_cons] at hburst
      have hcond : ¬ (e.1 + wait ≤ e2.1) := by omega
      have hlast2 : (e2 :: rest2).getLast? = some last := by
        rw [← hlast, List.getLast?_cons_cons]
      simp only [debounceFires, if_neg hcond, List.nil_append]
      exact ih hlast2 hburst.2

/-- C8 counterexample: variant 1 lowercases before debouncing, so for the
burst `"P"`, `"PI"`, `"PIK"` the single `setSearch` call receives `"pik"`,
not the last keystroke's text `"PIK"`; on the spec's all-lowercase example
both variants pass `"pik"`. -/
theorem debounce_lowercase_counterexample :
    setSearchCalls_v1 [(0, "P"), (100, "PI"), (200, "PIK")] = ["pik"] ∧
    (["pik"] : List String) ≠ ["PIK"] ∧
    setSearchCalls_v2 [(0, "p"), (100, "pi"), (200, "pik")] = ["pik"] :=
  ⟨by decide, by decide, by decide⟩

/-- C8 (amended): for every nonempty burst of keystrokes in which each
keystroke arrives within 300ms of the previous one, `setSearch` is invoked
exactly once; its argument is the last keystroke's text in variant 2, and
the lowercased last keystroke's text in variant 1. -/
theorem debounce_burst_single_call (ks : List (Nat × String))
    (last : Nat × String) (hlast : ks.getLast? = some last)
    (hburst : ks.Chain' fun a b => b.1 < a.1 + 300) :
    setSearchCalls_v2 ks = [last.2] ∧
    setSearchCalls_v1 ks = [jsToLower last.2] := by
  refine ⟨debounceFires_burst 300 ks last hlast hburst, ?_⟩
  have hmap : (ks.map fun e => (e.1, jsToLower e.2)).getLast?
      = some (last.1, jsToLower last.2) := by
    rw [List.getLast?_map, hlast]; rfl
  have hchain : (ks.map fun e => (e.1, jsToLower e.2)).Chain'
      fun a b => b.1 < a.1 + 300 := by
    rw [List.chain'_map]
    exact hburst
  exact debounceFires_burst 300 (ks.map fun e => (e.1, jsToLower e.2))
    (last.1, jsToLower last.2) hmap hchain

/-- Witness for `debounce_burst_single_call` on the spec's example burst. -/
theorem debounce_burst_single_call_witness :
    ([(0, "p"), (100, "pi"), (200, "pik")] : List (Nat × String)).getLast?
      = some (200, "pik") ∧
    ([(0, "p"), (100, "pi"), (200, "pik")] : List (Nat × String)).Chain'
      (fun a b => b.1 < a.1 + 300) ∧
    setSearchCalls_v2 [(0, "p"), (100, "pi"), (200, "pik")] = ["pik"] := by
  have h := debounce_burst_single_call [(0, "p"), (100, "pi"), (200, "pik")]
    (200, "pik") (by decide) (by simp [List.chain'_cons])
  exact ⟨by decide, by simp [List.chain'_cons], h.1⟩

/-- Toggling one name leaves every other name's membership unchanged. -/
theorem toggleFavorite_mem_ne (name m : String) (favorites : Finset String)
    (hm : m ≠ name) : m ∈ toggleFavorite name favorites ↔ m ∈ favorites := by
  by_cases h : name ∈ favorites <;> simp [toggleFavorite, h, hm]

/-- C10: `setSearch` touches only the `search` field (the favorites
reference and heap are untouched); `toggleFavoriteAction` leaves the search
term unchanged, leaves every other name's membership unchanged, and installs
a fresh set at a fresh reference, so every previously readable heap cell —
in particular any `Set` snapshot read before the call — keeps its prior
contents. -/
theorem store_mutation_frame (term name : String) (st : StoreState) :
    (setSearch term st).search = term ∧
    (setSearch term st).favPtr = st.favPtr ∧
    (setSearch term st).heap = st.heap ∧
    readFavorites (setSearch term st) = readFavorites st ∧
    (toggleFavoriteAction name st).search = st.search ∧
    (∀ m, m ≠ name →
      (m ∈ readFavorites (toggleFavoriteAction name st) ↔
        m ∈ readFavorites st)) ∧
    (∀ p, p < st.heap.length →
      (toggleFavoriteAction name st).heap.getD p ∅ = st.heap.getD p ∅) := by
  refine ⟨rfl, rfl, rfl, rfl, rfl, fun m hm => ?_, fun p hp => ?_⟩
  · have hread : readFavorites (toggleFavoriteAction name st)
        = toggleFavorite name (readFavorites st) := by
      simp [readFavorites, toggleFavoriteAction, List.getD_eq_getElem?_getD,
        List.getElem?_concat_length]
    rw [hread]
    exact toggleFavorite_mem_ne name m (readFavorites st) hm
  · simp [toggleFavoriteAction, List.getD_eq_getElem?_getD,
      List.getElem?_append_left hp]

/-- Dropping a maximal digit run reaches the corresponding `dropWhile`. -/
theorem drop_takeWhile_length_eq_dropWhile (u : List Char) :
    u.drop (u.takeWhile Char.isDigit).length = u.dropWhile Char.isDigit := by
  have h1 := List.drop_left (u.takeWhile Char.isDigit) (u.dropWhile Char.isDigit)
  rw [List.takeWhile_append_dropWhile] at h1
  exact h1

/-- Soundness of the single-position matcher: a successful match yields a
nonempty all-digit capture and the expected decomposition of the input. -/
theorem idMatchAt_sound (cs ds : List Char) (h : idMatchAt cs = some ds) :
    ds ≠ [] ∧ (∀ c ∈ ds, c.isDigit) ∧
    ∃ tail, cs = pokemonSegPrefix ++ ds ++ '/' :: tail := by
  unfold idMatchAt at h
  by_cases hpre : pokemonSegPrefix.isPrefixOf cs = true
  · rw [if_pos hpre] at h
    rw [List.isPrefixOf_iff_prefix] at hpre
    obtain ⟨u, hu⟩ := hpre
    have hrest : cs.drop pokemonSegPrefix.length = u := by
      rw [← hu, List.drop_left]
    rw [hrest] at h
    by_cases hemp : (u.takeWhile Char.isDigit).isEmpty = true
    · rw [if_pos hemp] at h
      exact absurd h (by simp)
    · rw [if_neg hemp] at h
      by_cases hhead :
          (u.drop (u.takeWhile Char.isDigit).length).head? = some '/'
      · rw [if_pos hhead] at h
        have hds : ds = u.takeWhile Char.isDigit := (Option.some.inj h).symm
        subst hds
        refine ⟨?_, fun c hc => List.mem_takeWhile_imp hc, ?_⟩
        · intro hnil
          apply hemp
          rw [hnil]
          rfl
        · rw [drop_takeWhile_length_eq_dropWhile] at hhead
          cases hd : u.dropWhile Char.isDigit with
          | nil => rw [hd] at hhead; simp at hhead
          | cons c l =>
            rw [hd] at hhead
            simp only [List.head?_cons, Option.some.injEq] at hhead
            subst hhead
            refine ⟨l, ?_⟩
            rw [← hu]
            simp only [List.append_assoc]
            congr 1
            conv_lhs => rw [← List.takeWhile_append_dropWhile
              (p := Char.isDigit) (l := u)]
            rw [hd]
      · rw [if_neg hhead] at h
        exact absurd h (by simp)
  · rw [if_neg hpre] at h
    exact absurd h (by simp)

/-- Completeness of the single-position matcher on a well-formed segment. -/
theorem idMatchAt_complete (ds tail : List Char) (hne : ds ≠ [])
    (hdig : ∀ c ∈ ds, c.isDigit) :
    idMatchAt (pokemonSegPrefix ++ ds ++ '/' :: tail) = some ds := by
  have hpre : pokemonSegPrefix.isPrefixOf
      (pokemonSegPrefix ++ ds ++ '/' :: tail) = true := by
    rw [List.isPrefixOf_iff_prefix]
    exact ⟨ds ++ '/' :: tail, by simp [List.append_assoc]⟩
  have hrest : (pokemonSegPrefix ++ ds ++ '/' :: tail).drop pokemonSegPrefix.length
      = ds ++ '/' :: tail := by
    rw [List.append_assoc, List.drop_left]
  have htw : (ds ++ '/' :: tail).takeWhile Char.isDigit = ds := by
    rw [List.takeWhile_append]
    have hself : ds.takeWhile Char.isDigit = ds :=
      List.takeWhile_eq_self_iff.mpr hdig
    rw [hself, if_pos rfl, List.takeWhile_cons_of_neg (by decide), List.append_nil]
  unfold idMatchAt
  rw [if_pos hpre, hrest, htw]
  rw [if_neg (by simp [List.isEmpty_iff, hne])]
  rw [List.drop_left]
  simp

/-- If some start position matches, the left-to-right scan succeeds. -/
theorem idScan_some_of_matchAt (cs : List Char) (i : Nat) (ds : List Char)
    (h : idMatchAt (cs.drop i) = some ds) : ∃ ds2, idScan cs = some ds2 := by
  induction cs generalizing i with
  | nil =>
    rw [List.drop_nil] at h
    have hnone : idMatchAt [] = none := rfl
    rw [hnone] at h
    exact absurd h (by simp)
  | cons c rest ih =>
    cases i with
    | zero =>
      rw [List.drop_zero] at h
      exact ⟨ds, by unfold idScan; rw [h]⟩
    | succ j =>
      rw [List.drop_succ_cons] at h
      obtain ⟨ds2, hds2⟩ := ih j h
      unfold idScan
      cases hm : idMatchAt (c :: rest) with
      | some d => exact ⟨d, rfl⟩
      | none => exact ⟨ds2, hds2⟩

/-- The scan only succeeds by matching at some start position. -/
theorem idScan_sound (cs ds : List Char) (h : idScan cs = some ds) :
    ∃ i, idMatchAt (cs.drop i) = some ds := by
  induction cs with
  | nil => simp [idScan] at h
  | cons c rest ih =>
    unfold idScan at h
    cases hm : idMatchAt (c :: rest) with
    | some d =>
      rw [hm] at h
      cases h
      exact ⟨0, by rw [List.drop_zero]; exact hm⟩
    | none =>
      rw [hm] at h
      obtain ⟨i, hi⟩ := ih h
      exact ⟨i + 1, by rw [List.drop_succ_cons]; exact hi⟩

/-- C9: the identifier used for the enrichment request is the digit sequence
of a `/pokemon/<digits>/` segment of the record's URL whenever such a
segment is present — `getPokemonId` returns a nonempty all-digit capture
whose surrounding segment occurs in the URL, and `resolveId` uses it — and
otherwise `getPokemonId` returns `none` and `resolveId` falls back to the
record's name. -/
theorem id_resolution (p : Pokemon) :
    (HasIdSegment p.url →
      ∃ ds : String, getPokemonId p.url = some ds ∧ ds ≠ "" ∧
        (∀ c ∈ ds.data, c.isDigit) ∧
        (pokemonSegPrefix ++ ds.data ++ ['/']) <:+: p.url.data ∧
        resolveId p = ds) ∧
    (¬ HasIdSegment p.url → getPokemonId p.url = none ∧ resolveId p = p.name) := by
  constructor
  · rintro ⟨pre, ds0, post, hne0, hdig0, hdecomp⟩
    have hdrop : p.url.data.drop pre.length = pokemonSegPrefix ++ ds0 ++ '/' :: post := by
      rw [hdecomp]
      simp only [List.append_assoc]
      rw [List.drop_left]
    obtain ⟨ds1, hds1⟩ := idScan_some_of_matchAt p.url.data pre.length ds0
      (by rw [hdrop]; exact idMatchAt_complete ds0 post hne0 hdig0)
    obtain ⟨i, hi⟩ := idScan_sound _ _ hds1
    obtain ⟨hne1, hdig1, tail1, hd1⟩ := idMatchAt_sound _ _ hi
    have hmkne : String.mk ds1 ≠ "" := by
      intro hcontra
      exact hne1 (congrArg String.data hcontra)
    have hglue : p.url.data
        = p.url.data.take i ++ (pokemonSegPrefix ++ ds1 ++ '/' :: tail1) := by
      conv_lhs => rw [← List.take_append_drop i p.url.data]
      rw [hd1]
    refine ⟨String.mk ds1, ?_, hmkne, ?_, ?_, ?_⟩
    · simp [getPokemonId, hds1]
    · exact hdig1
    · refine ⟨p.url.data.take i, tail1, ?_⟩
      conv_rhs => rw [hglue]
      simp [List.append_assoc]
    · simp [resolveId, getPokemonId, hds1, hmkne]
  · intro hno
    have hnone : getPokemonId p.url = none := by
      cases hg : getPokemonId p.url with
      | none => rfl
      | some s =>
        exfalso
        apply hno
        unfold getPokemonId at hg
        cases hs : idScan p.url.data with
        | none => rw [hs] at hg; simp at hg
        | some ds1 =>
          obtain ⟨i, hi⟩ := idScan_sound _ _ hs
          obtain ⟨hne1, hdig1, tail1, hd1⟩ := idMatchAt_sound _ _ hi
          refine ⟨p.url.data.take i, ds1, tail1, hne1, hdig1, ?_⟩
          conv_lhs => rw [← List.take_append_drop i p.url.data]
          rw [hd1]
          simp [List.append_assoc]
    exact ⟨hnone, by simp [resolveId, hnone]⟩

/-- Witness for `id_resolution` on a concrete catalog URL. -/
theorem id_resolution_witness :
    ∃ ds : String,
      getPokemonId "https://pokeapi.co/api/v2/pokemon/1/" = some ds ∧ ds ≠ "" ∧
      (∀ c ∈ ds.data, c.isDigit) ∧
      (pokemonSegPrefix ++ ds.data ++ ['/'])
        <:+: "https://pokeapi.co/api/v2/pokemon/1/".data ∧
      resolveId ⟨"bulbasaur", "https://pokeapi.co/api/v2/pokemon/1/"⟩ = ds :=
  (id_resolution ⟨"bulbasaur", "https://pokeapi.co/api/v2/pokemon/1/"⟩).1
    ⟨"https://pokeapi.co/api/v2".data, ['1'], [], by decide, by decide, by decide⟩

/-- Witness for `store_mutation_frame` on the initial store. -/
theorem store_mutation_frame_witness :
    ("b" : String) ≠ "a" ∧ (0 : Nat) < initialStore.heap.length ∧
    (("b" : String) ∈ readFavorites (toggleFavoriteAction "a" initialStore) ↔
      ("b" : String) ∈ readFavorites initialStore) ∧
    (toggleFavoriteAction "a" initialStore).heap.getD 0 ∅
      = initialStore.heap.getD 0 ∅ := by
  have h := store_mutation_frame "x" "a" initialStore
  exact ⟨by decide, by decide, h.2.2.2.2.2.1 "b" (by decide),
    h.2.2.2.2.2.2 0 (by decide)⟩

end RNPerf
